import Mathlib

/-! Shallow embedding of the DDPM video-diffusion program (dppm_3d.py):
noise-schedule construction, forward corruption (q_sample), ancestral
sampling (p_sample), positional time embedding, UNet3D control flow,
the EMA shadow model, checkpoint save/load, and the training-loop
cadence, together with theorems checking the specification. -/

namespace VideoDiffusion

/-- Model of torch.linspace: point i of steps evenly spaced values from s
to e inclusive.  For steps = 1 real division by zero yields 0, so the
single point is s, matching torch. -/
noncomputable def linspace (s e : ℝ) (steps : ℕ) : ℕ → ℝ :=
  fun i => s + i * (e - s) / ((steps : ℝ) - 1)

/-- Constructor arguments of Diffusion.__init__ (device omitted). -/
structure Diffusion where
  img_size : ℕ
  noise_steps : ℕ
  beta_start : ℝ
  beta_end : ℝ

/-- Diffusion.linear_noise_schedule: beta = linspace(beta_start, beta_end, noise_steps). -/
noncomputable def Diffusion.beta (D : Diffusion) : ℕ → ℝ :=
  linspace D.beta_start D.beta_end D.noise_steps

/-- alpha = 1 - beta. -/
noncomputable def Diffusion.alpha (D : Diffusion) : ℕ → ℝ :=
  fun i => 1 - D.beta i

/-- Model of torch.cumprod along dim 0. -/
noncomputable def cumprod (f : ℕ → ℝ) : ℕ → ℝ
  | 0 => f 0
  | n + 1 => cumprod f n * f (n + 1)

/-- alpha_hat = cumprod(alpha). -/
noncomputable def Diffusion.alpha_hat (D : Diffusion) : ℕ → ℝ :=
  cumprod D.alpha

/-- sqrt_alpha_hat = sqrt(alpha_hat). -/
noncomputable def Diffusion.sqrt_alpha_hat (D : Diffusion) : ℕ → ℝ :=
  fun i => Real.sqrt (D.alpha_hat i)

/-- sqrt_one_minus_alpha_hat = sqrt(1 - alpha_hat). -/
noncomputable def Diffusion.sqrt_one_minus_alpha_hat (D : Diffusion) : ℕ → ℝ :=
  fun i => Real.sqrt (1 - D.alpha_hat i)

/-- sqrt_alpha = sqrt(alpha). -/
noncomputable def Diffusion.sqrt_alpha (D : Diffusion) : ℕ → ℝ :=
  fun i => Real.sqrt (D.alpha i)

/-- std_beta = sqrt(beta). -/
noncomputable def Diffusion.std_beta (D : Diffusion) : ℕ → ℝ :=
  fun i => Real.sqrt (D.beta i)

/-- Diffusion.q_sample: forward corruption.  B indexes the batch, I the
remaining axes; the per-batch-element coefficients are broadcast over I
(the `.view(-1, 1, 1, 1, 1)` of the source). -/
noncomputable def Diffusion.q_sample {B I : Type} (D : Diffusion)
    (x : B → I → ℝ) (t : B → ℕ) (eps : B → I → ℝ) :
    (B → I → ℝ) × (B → I → ℝ) :=
  (fun b j => D.sqrt_alpha_hat (t b) * x b j + D.sqrt_one_minus_alpha_hat (t b) * eps b j,
   eps)

/-- Timesteps visited by the p_sample loop: reversed(range(1, noise_steps)). -/
def pSampleTimesteps (noise_steps : ℕ) : List ℕ :=
  (List.range' 1 (noise_steps - 1)).reverse

/-- One reverse-diffusion update of p_sample at timestep i: fresh noise
for i > 1, zero noise for i = 1. -/
noncomputable def Diffusion.pSampleStep {I : Type} (D : Diffusion)
    (net : (I → ℝ) → ℕ → I → ℝ) (noiseSrc : ℕ → I → ℝ)
    (x : I → ℝ) (i : ℕ) : I → ℝ :=
  fun j =>
    1 / D.sqrt_alpha i * (x j - D.beta i / D.sqrt_one_minus_alpha_hat i * net x i j)
      + D.std_beta i * (if 1 < i then noiseSrc i j else 0)

/-- The p_sample denoising loop over the reversed timestep list. -/
noncomputable def Diffusion.pSampleLoop {I : Type} (D : Diffusion)
    (net : (I → ℝ) → ℕ → I → ℝ) (noiseSrc : ℕ → I → ℝ) (x0 : I → ℝ) : I → ℝ :=
  (pSampleTimesteps D.noise_steps).foldl (D.pSampleStep net noiseSrc) x0

/-- Post-loop pixel conversion of p_sample: clamp to [-1,1], map by
(v + 1) * 127.5, cast to an 8-bit integer (torch truncates toward zero,
which on these nonnegative values is the floor). -/
noncomputable def toPixel (r : ℝ) : ℤ :=
  ⌊(min (max r (-1)) 1 + 1) * (255 / 2 : ℝ)⌋

/-- Index map of nearest-exact interpolation with an integer scale factor f:
output position o reads input position o / f (floor((o + 0.5) / f) = o / f
for natural o and positive f). -/
def upIdx {s f : ℕ} (h : Fin (s * f)) : Fin s :=
  ⟨h.val / f, by
    have hlt : h.val < f * s := lt_of_lt_of_le h.isLt (le_of_eq (Nat.mul_comm s f))
    exact Nat.div_lt_of_lt_mul hlt⟩

/-- Element index of the 4-D tensor [n, 3, s, s] produced inside p_sample. -/
abbrev SampleIdx (n s : ℕ) : Type := Fin n × Fin 3 × Fin s × Fin s

/-- Diffusion.p_sample: start from standard-normal initNoise, run the
reverse loop, clamp, rescale, quantize and nearest-exact upscale by f.
The abstract net stands for eps_model, noiseSrc for the per-step
standard-normal draws. -/
noncomputable def Diffusion.p_sample (D : Diffusion) (n f : ℕ)
    (net : (SampleIdx n D.img_size → ℝ) → ℕ → SampleIdx n D.img_size → ℝ)
    (noiseSrc : ℕ → SampleIdx n D.img_size → ℝ)
    (initNoise : SampleIdx n D.img_size → ℝ) :
    Fin n → Fin 3 → Fin (D.img_size * f) → Fin (D.img_size * f) → ℤ :=
  fun b c h w =>
    toPixel (D.pSampleLoop net noiseSrc initNoise (b, c, upIdx h, upIdx w))

/-- Train/eval flag of an nn.Module. -/
inductive Mode where
  | train
  | eval
deriving DecidableEq

/-- The p_sample loop with a network that can raise: the first error
aborts the loop, as an exception would. -/
noncomputable def Diffusion.pSampleLoopE {I E : Type} (D : Diffusion)
    (net : (I → ℝ) → ℕ → Except E (I → ℝ)) (noiseSrc : ℕ → I → ℝ) :
    (I → ℝ) → List ℕ → Except E (I → ℝ)
  | x, [] => Except.ok x
  | x, i :: rest =>
    match net x i with
    | Except.error e => Except.error e
    | Except.ok predicted =>
      Diffusion.pSampleLoopE D net noiseSrc
        (fun j =>
          1 / D.sqrt_alpha i * (x j - D.beta i / D.sqrt_one_minus_alpha_hat i * predicted j)
            + D.std_beta i * (if 1 < i then noiseSrc i j else 0))
        rest

/-- Control flow of p_sample around the module mode: eps_model.eval() is
called first; eps_model.train() runs only after the loop completes
normally, so an exception leaves the module in eval mode. -/
noncomputable def Diffusion.pSampleWithMode {I E : Type} (D : Diffusion)
    (net : (I → ℝ) → ℕ → Except E (I → ℝ)) (noiseSrc : ℕ → I → ℝ)
    (x0 : I → ℝ) : Except E (I → ℝ) × Mode :=
  match D.pSampleLoopE net noiseSrc x0 (pSampleTimesteps D.noise_steps) with
  | Except.ok x => (Except.ok x, Mode.train)
  | Except.error e => (Except.error e, Mode.eval)

/-- EMA state: smoothing factor beta and the monotone step counter. -/
structure EMA where
  beta : ℚ
  step : ℕ

/-- EMA.update_average: old * beta + (1 - beta) * new.  (The `old is None`
branch of the source is unreachable here: parameters are never None.) -/
def EMA.update_average (e : EMA) (old_weights new_weights : ℚ) : ℚ :=
  old_weights * e.beta + (1 - e.beta) * new_weights

/-- EMA.update_model_average: zip the live and shadow parameter lists in
lockstep and blend each pair. -/
def EMA.update_model_average (e : EMA) (ema_model current_model : List ℚ) : List ℚ :=
  List.zipWith
    (fun current_params ema_params => e.update_average ema_params current_params)
    current_model ema_model

/-- EMA.reset_parameters: ema_model.load_state_dict(model.state_dict()),
a verbatim copy of the live parameters. -/
def EMA.reset_parameters (_ema_model model : List ℚ) : List ℚ := model

/-- EMA.ema_step: warm-start copy below the threshold, blend at or above
it; the counter advances by 1 in both branches.  Returns the new EMA state
and the new shadow parameter list. -/
def EMA.ema_step (e : EMA) (ema_model model : List ℚ) (step_start_ema : ℕ) :
    EMA × List ℚ :=
  if e.step < step_start_ema then
    (⟨e.beta, e.step + 1⟩, EMA.reset_parameters ema_model model)
  else
    (⟨e.beta, e.step + 1⟩, e.update_model_average ema_model model)

/-- Constructor arguments of PositionalEncoding (dropout probability
omitted; dropout itself is abstracted by a mask below). -/
structure PosEnc where
  time_dim : ℕ
  embedding_dim : ℕ
  max_len : ℕ
  apply_dropout : Bool

/-- div_term of the source at even column index e: exp(-log(10000) * e / dim). -/
noncomputable def posDivTerm (dim e : ℕ) : ℝ :=
  Real.exp (-Real.log 10000 * e / dim)

/-- Entry (j, p, e) of the precomputed buffer of shape
[time_dim, max_len, embedding_dim]: the first axis j is filled by
broadcast, so the value does not depend on it; even e gets sin, odd e the
matching cos. -/
noncomputable def posTableEntry (dim : ℕ) (_j p e : ℕ) : ℝ :=
  if e % 2 = 0 then Real.sin (p * posDivTerm dim e)
  else Real.cos (p * posDivTerm dim (e - 1))

/-- Shape of the buffer torch.zeros(time_dim, max_len, embedding_dim). -/
def posTableShape (pe : PosEnc) : List ℕ :=
  [pe.time_dim, pe.max_len, pe.embedding_dim]

/-- PositionalEncoding.forward: pos_encoding[t].squeeze(1), with dropout
applied when configured and in training mode (modelled by the mask).
Indexing the first axis with any value >= time_dim raises, hence none.
squeeze(1) removes the middle axis only when max_len = 1.  Returns the
output shape and an entry function. -/
noncomputable def PosEnc.forward (pe : PosEnc) (training : Bool)
    (mask : ℕ → ℕ → ℕ → ℝ) (t : List ℕ) :
    Option (List ℕ × (ℕ → ℕ → ℕ → ℝ)) :=
  if ∀ v ∈ t, v < pe.time_dim then
    let shape := if pe.max_len = 1 then [t.length, pe.embedding_dim]
      else [t.length, pe.max_len, pe.embedding_dim]
    let vals := fun b p e => posTableEntry pe.embedding_dim (t.getD b 0) p e
    if pe.apply_dropout && training then
      some (shape, fun b p e => mask b p e * vals b p e)
    else
      some (shape, vals)
  else none

/-- UNet3D with its blocks abstracted: only the control flow of forward is
modelled.  τ is the feature-tensor type. -/
structure UNet3DM (τ : Type) where
  time_dim : ℕ
  noise_steps : ℕ
  training : Bool
  dropout_mask : ℕ → ℕ → ℕ → ℝ
  input_conv : τ → τ
  down1 : τ → τ
  down2 : τ → τ
  down3 : τ → τ
  bottleneck : τ → τ
  up1 : τ → τ → τ
  up2 : τ → τ → τ
  up3 : τ → τ → τ
  out_conv : τ → τ

/-- UNet3D.forward: the time embedding is computed first (and an indexing
error in it propagates), then discarded; the image path never consumes
it. -/
noncomputable def UNet3DM.forward {τ : Type} (net : UNet3DM τ) (x : τ) (t : List ℕ) :
    Option τ :=
  match PosEnc.forward ⟨net.time_dim, net.time_dim, net.noise_steps, true⟩
      net.training net.dropout_mask t with
  | none => none
  | some _ =>
    let x1 := net.input_conv x
    let x2 := net.down1 x1
    let x3 := net.down2 x2
    let x4 := net.down3 x3
    let xb := net.bottleneck x4
    let u1 := net.up1 xb x3
    let u2 := net.up2 u1 x2
    let u3 := net.up3 u2 x1
    some (net.out_conv u3)

/-- Concrete UNet3DM instance with default hyperparameters (time_dim 256,
noise_steps 1000) and identity blocks over ℕ. -/
def exUNet : UNet3DM ℕ :=
  ⟨256, 1000, true, fun _ _ _ => 1, id, id, id, id, id,
    fun a _ => a, fun a _ => a, fun a _ => a, id⟩

/-- Checkpoint record: torch.save dictionary with its optional keys.  The
weights mapping is a key/value list; collaborator states are abstract. -/
structure Checkpoint (σ : Type) where
  epoch : Option ℕ
  state_dict : Option (List (String × ℚ))
  optimizer : Option σ
  scheduler : Option σ
  grad_scaler : Option σ

/-- Utils.save_checkpoint: epoch and weights always; optimizer state when
the optimizer is passed; scheduler state when the scheduler is passed; and
— as in the source — grad_scaler state is also gated on the scheduler, so
passing a scheduler without a grad_scaler dereferences None. -/
def save_checkpoint (σ : Type) (epoch : ℕ) (model : List (String × ℚ))
    (optimizer scheduler grad_scaler : Option σ) : Except String (Checkpoint σ) :=
  let c1 : Checkpoint σ := ⟨some epoch, some model, none, none, none⟩
  let c2 := match optimizer with
    | some o => { c1 with optimizer := some o }
    | none => c1
  let c3 := match scheduler with
    | some s => { c2 with scheduler := some s }
    | none => c2
  match scheduler with
  | some _ =>
    match grad_scaler with
    | some g => Except.ok { c3 with grad_scaler := some g }
    | none => Except.error "NoneType has no attribute state_dict"
  | none => Except.ok c3

/-- model.load_state_dict(sd, strict=False): keys present in both are
overwritten; unmatched keys on either side are ignored. -/
def load_state_dict_nonstrict (model sd : List (String × ℚ)) : List (String × ℚ) :=
  model.map fun kv =>
    match sd.find? (fun kv2 => kv2.1 == kv.1) with
    | some kv2 => (kv.1, kv2.2)
    | none => kv

/-- Utils.load_checkpoint: requires the weights mapping and the epoch;
optional states are loaded only when their key is present (dereferencing a
None collaborator raises); returns the stored epoch and the updated
weights. -/
def load_checkpoint (σ : Type) (model : List (String × ℚ)) (ckpt : Checkpoint σ)
    (optimizer scheduler grad_scaler : Option σ) :
    Except String (ℕ × List (String × ℚ)) :=
  match ckpt.state_dict with
  | none => Except.error "KeyError state_dict"
  | some sd =>
    let model2 := load_state_dict_nonstrict model sd
    match ckpt.optimizer, optimizer with
    | some _, none => Except.error "NoneType has no attribute load_state_dict"
    | _, _ =>
      match ckpt.scheduler, scheduler with
      | some _, none => Except.error "NoneType has no attribute load_state_dict"
      | _, _ =>
        match ckpt.grad_scaler, grad_scaler with
        | some _, none => Except.error "NoneType has no attribute load_state_dict"
        | _, _ =>
          match ckpt.epoch with
          | none => Except.error "KeyError epoch"
          | some e => Except.ok (e, model2)

/-- Side effects of one Trainer.train batch iteration, in program order. -/
inductive TrainEvent where
  | backward
  | optStep
  | emaStep
  | sample
  | saveCkpt
  | saveCkptEma
deriving DecidableEq

/-- Events of batch batch_idx: backward always; optimizer step and EMA
step when (batch_idx + 1) % accumulation_iters == 0; sampling plus the two
checkpoint writes when batch_idx % save_every == 0. -/
def batchEvents (accumulation_iters save_every batch_idx : ℕ) : List TrainEvent :=
  [TrainEvent.backward]
    ++ (if (batch_idx + 1) % accumulation_iters = 0 then
          [TrainEvent.optStep, TrainEvent.emaStep] else [])
    ++ (if batch_idx % save_every = 0 then
          [TrainEvent.sample, TrainEvent.saveCkpt, TrainEvent.saveCkptEma] else [])

/-- Event trace of one epoch over num_batches batches. -/
def epochEvents (accumulation_iters save_every num_batches : ℕ) : List TrainEvent :=
  (List.range num_batches).flatMap (batchEvents accumulation_iters save_every)

section ScheduleLemmas

variable {D : Diffusion}

/-- With at least two steps and increasing bounds, linspace is strictly
increasing in the index. -/
lemma beta_strictMono (h2 : 2 ≤ D.noise_steps) (hse : D.beta_start < D.beta_end)
    {i j : ℕ} (hij : i < j) : D.beta i < D.beta j := by
  have hn : (1 : ℝ) ≤ (D.noise_steps : ℝ) - 1 := by
    have : (2 : ℝ) ≤ (D.noise_steps : ℝ) := by exact_mod_cast h2
    linarith
  have hd : 0 < (D.beta_end - D.beta_start) / ((D.noise_steps : ℝ) - 1) :=
    div_pos (by linarith) (by linarith)
  have hc : (i : ℝ) < (j : ℝ) := by exact_mod_cast hij
  have := mul_lt_mul_of_pos_right hc hd
  unfold Diffusion.beta linspace
  rw [mul_div_assoc, mul_div_assoc]
  linarith

/-- Each linspace entry with index below noise_steps lies between the two bounds. -/
lemma beta_bounds (h2 : 2 ≤ D.noise_steps) (hse : D.beta_start < D.beta_end)
    {i : ℕ} (hi : i < D.noise_steps) :
    D.beta_start ≤ D.beta i ∧ D.beta i ≤ D.beta_end := by
  have hn : (1 : ℝ) ≤ (D.noise_steps : ℝ) - 1 := by
    have : (2 : ℝ) ≤ (D.noise_steps : ℝ) := by exact_mod_cast h2
    linarith
  have hd : 0 < (D.beta_end - D.beta_start) / ((D.noise_steps : ℝ) - 1) :=
    div_pos (by linarith) (by linarith)
  have hi' : (i : ℝ) ≤ (D.noise_steps : ℝ) - 1 := by
    have : (i : ℝ) + 1 ≤ (D.noise_steps : ℝ) := by exact_mod_cast hi
    linarith
  unfold Diffusion.beta linspace
  constructor
  · have : 0 ≤ (i : ℝ) * ((D.beta_end - D.beta_start) / ((D.noise_steps : ℝ) - 1)) :=
      mul_nonneg (Nat.cast_nonneg i) hd.le
    rw [mul_div_assoc]
    linarith
  · have hle : (i : ℝ) * ((D.beta_end - D.beta_start) / ((D.noise_steps : ℝ) - 1))
        ≤ ((D.noise_steps : ℝ) - 1) * ((D.beta_end - D.beta_start) / ((D.noise_steps : ℝ) - 1)) :=
      mul_le_mul_of_nonneg_right hi' hd.le
    have hcancel : ((D.noise_steps : ℝ) - 1) * ((D.beta_end - D.beta_start) / ((D.noise_steps : ℝ) - 1))
        = D.beta_end - D.beta_start := by
      rw [mul_div_assoc']
      exact mul_div_cancel_left₀ _ (by linarith)
    rw [mul_div_assoc]
    linarith

/-- The first linspace entry is beta_start. -/
lemma beta_zero : D.beta 0 = D.beta_start := by
  unfold Diffusion.beta linspace
  simp

/-- The last linspace entry is beta_end when there are at least two steps. -/
lemma beta_last (h2 : 2 ≤ D.noise_steps) : D.beta (D.noise_steps - 1) = D.beta_end := by
  have h1 : 1 ≤ D.noise_steps := le_trans (by norm_num) h2
  have hn : (1 : ℝ) ≤ (D.noise_steps : ℝ) - 1 := by
    have : (2 : ℝ) ≤ (D.noise_steps : ℝ) := by exact_mod_cast h2
    linarith
  unfold Diffusion.beta linspace
  have hcast : ((D.noise_steps - 1 : ℕ) : ℝ) = (D.noise_steps : ℝ) - 1 := by
    push_cast [Nat.cast_sub h1]
    ring
  have hne : (D.noise_steps : ℝ) - 1 ≠ 0 := by linarith
  rw [hcast]
  field_simp

/-- All cumulative products strictly before the last index are positive
when the schedule bounds are admissible. -/
lemma alpha_hat_pos (h2 : 2 ≤ D.noise_steps) (_hs : 0 < D.beta_start)
    (hse : D.beta_start < D.beta_end) (he1 : D.beta_end ≤ 1) :
    ∀ i, i + 1 < D.noise_steps → 0 < D.alpha_hat i := by
  intro i
  induction i with
  | zero =>
    intro _
    have : D.beta 0 = D.beta_start := beta_zero
    unfold Diffusion.alpha_hat cumprod Diffusion.alpha
    rw [this]
    linarith
  | succ m ih =>
    intro hm
    have hmn : m + 1 < D.noise_steps := Nat.lt_of_succ_lt hm
    have hpos := ih (Nat.lt_of_succ_lt hm)
    have hlt : D.beta (m + 1) < D.beta_end := by
      have hlast : D.beta (D.noise_steps - 1) = D.beta_end := beta_last h2
      have : m + 1 < D.noise_steps - 1 := by omega
      calc D.beta (m + 1) < D.beta (D.noise_steps - 1) := beta_strictMono h2 hse this
        _ = D.beta_end := hlast
    have hfac : 0 < D.alpha (m + 1) := by
      unfold Diffusion.alpha
      linarith
    show 0 < cumprod D.alpha m * D.alpha (m + 1)
    exact mul_pos hpos hfac

/-- One cumulative-product step strictly decreases the value and keeps it
nonnegative, under admissible schedule bounds. -/
lemma alpha_hat_step (h2 : 2 ≤ D.noise_steps) (hs : 0 < D.beta_start)
    (hse : D.beta_start < D.beta_end) (he1 : D.beta_end ≤ 1)
    {i : ℕ} (hi : i + 1 < D.noise_steps) :
    D.alpha_hat (i + 1) < D.alpha_hat i ∧ 0 ≤ D.alpha_hat (i + 1) := by
  have hpos : 0 < D.alpha_hat i := alpha_hat_pos h2 hs hse he1 i hi
  have hgt : D.beta_start ≤ D.beta (i + 1) := by
    have h0 : D.beta 0 = D.beta_start := beta_zero
    have := beta_strictMono h2 hse (Nat.succ_pos i)
    rw [h0] at this
    exact this.le
  have hle : D.beta (i + 1) ≤ D.beta_end :=
    (beta_bounds h2 hse hi).2
  have hfac1 : D.alpha (i + 1) < 1 := by
    unfold Diffusion.alpha
    linarith
  have hfac0 : 0 ≤ D.alpha (i + 1) := by
    unfold Diffusion.alpha
    linarith
  constructor
  · show cumprod D.alpha i * D.alpha (i + 1) < D.alpha_hat i
    calc cumprod D.alpha i * D.alpha (i + 1) < cumprod D.alpha i * 1 :=
          mul_lt_mul_of_pos_left hfac1 hpos
      _ = D.alpha_hat i := by rw [mul_one]; rfl
  · exact mul_nonneg hpos.le hfac0

/-- sqrt of the cumulative product strictly decreases at every step taken
inside the schedule, under admissible bounds. -/
lemma sqrt_alpha_hat_step (h2 : 2 ≤ D.noise_steps) (hs : 0 < D.beta_start)
    (hse : D.beta_start < D.beta_end) (he1 : D.beta_end ≤ 1)
    {i : ℕ} (hi : i + 1 < D.noise_steps) :
    D.sqrt_alpha_hat (i + 1) < D.sqrt_alpha_hat i := by
  obtain ⟨hlt, hnn⟩ := alpha_hat_step h2 hs hse he1 hi
  exact Real.sqrt_lt_sqrt hnn hlt

/-- sqrt of the cumulative product at any later in-range index is strictly
below its value at index 0. -/
lemma sqrt_alpha_hat_below_first (h2 : 2 ≤ D.noise_steps) (hs : 0 < D.beta_start)
    (hse : D.beta_start < D.beta_end) (he1 : D.beta_end ≤ 1) :
    ∀ j, 1 ≤ j → j < D.noise_steps → D.sqrt_alpha_hat j < D.sqrt_alpha_hat 0 := by
  intro j
  induction j with
  | zero => omega
  | succ m ih =>
    intro _ hmn
    rcases Nat.eq_zero_or_pos m with hm0 | hm1
    · subst hm0
      exact sqrt_alpha_hat_step h2 hs hse he1 hmn
    · have hstep := sqrt_alpha_hat_step h2 hs hse he1 hmn
      exact lt_trans hstep (ih hm1 (Nat.lt_of_succ_lt hmn))

end ScheduleLemmas

/-- C5: for schedules with step_count >= 2 and 0 < beta_start < beta_end,
the linear beta array is strictly increasing, bounded by the two endpoints
(attained at index 0 and step_count-1).  The counterexample forces the
additional bound beta_end <= 1, under which sqrt(cumprod(1-beta)) is
strictly decreasing and ends below its value at step 0. -/
theorem noise_schedule_monotone (D : Diffusion) (h2 : 2 ≤ D.noise_steps)
    (hs : 0 < D.beta_start) (hse : D.beta_start < D.beta_end) :
    (∀ i j, i < j → D.beta i < D.beta j)
    ∧ (∀ i, i < D.noise_steps → D.beta_start ≤ D.beta i ∧ D.beta i ≤ D.beta_end)
    ∧ D.beta 0 = D.beta_start
    ∧ D.beta (D.noise_steps - 1) = D.beta_end
    ∧ (D.beta_end ≤ 1 →
        (∀ i, i + 1 < D.noise_steps → D.sqrt_alpha_hat (i + 1) < D.sqrt_alpha_hat i)
        ∧ D.sqrt_alpha_hat (D.noise_steps - 1) < D.sqrt_alpha_hat 0) := by
  refine ⟨fun i j hij => beta_strictMono h2 hse hij,
    fun i hi => beta_bounds h2 hse hi,
    beta_zero, beta_last h2, fun he1 => ⟨fun i hi => sqrt_alpha_hat_step h2 hs hse he1 hi, ?_⟩⟩
  exact sqrt_alpha_hat_below_first h2 hs hse he1 (D.noise_steps - 1) (by omega) (by omega)

/-- C5 witness: concrete schedule (img 64, 3 steps, 1e-4 to 0.02); both the
outer hypotheses and the inner beta_end <= 1 hypothesis are discharged. -/
theorem noise_schedule_monotone_witness :
    (⟨64, 3, 1/10000, 2/100⟩ : Diffusion).beta 0 = (1/10000 : ℝ)
    ∧ (⟨64, 3, 1/10000, 2/100⟩ : Diffusion).sqrt_alpha_hat 2
      < (⟨64, 3, 1/10000, 2/100⟩ : Diffusion).sqrt_alpha_hat 0 :=
  ⟨(noise_schedule_monotone ⟨64, 3, 1/10000, 2/100⟩ (by norm_num) (by norm_num)
      (by norm_num)).2.2.1,
   ((noise_schedule_monotone ⟨64, 3, 1/10000, 2/100⟩ (by norm_num) (by norm_num)
      (by norm_num)).2.2.2.2 (by norm_num)).2⟩

/-- C5 counterexample: with step_count = 2, beta_start = 1, beta_end = 2
(allowed by the claim since 0 < 1 < 2), both cumulative products are 0, so
sqrt(cumprod(1-beta)) is not strictly decreasing and does not end below its
value at step 0. -/
theorem noise_schedule_cex :
    2 ≤ (⟨64, 2, 1, 2⟩ : Diffusion).noise_steps
    ∧ 0 < (⟨64, 2, 1, 2⟩ : Diffusion).beta_start
    ∧ (⟨64, 2, 1, 2⟩ : Diffusion).beta_start < (⟨64, 2, 1, 2⟩ : Diffusion).beta_end
    ∧ ¬ ((⟨64, 2, 1, 2⟩ : Diffusion).sqrt_alpha_hat 1
        < (⟨64, 2, 1, 2⟩ : Diffusion).sqrt_alpha_hat 0) := by
  refine ⟨by norm_num, by norm_num, by norm_num, ?_⟩
  have h0 : (⟨64, 2, 1, 2⟩ : Diffusion).alpha_hat 0 = 0 := by
    show (⟨64, 2, 1, 2⟩ : Diffusion).alpha 0 = 0
    unfold Diffusion.alpha Diffusion.beta linspace
    norm_num
  have h1 : (⟨64, 2, 1, 2⟩ : Diffusion).alpha_hat 1 = 0 := by
    show (⟨64, 2, 1, 2⟩ : Diffusion).alpha_hat 0 * (⟨64, 2, 1, 2⟩ : Diffusion).alpha 1 = 0
    rw [h0, zero_mul]
  unfold Diffusion.sqrt_alpha_hat
  rw [h0, h1]
  simp

/-- C6 counterexample: constructing the schedule with beta_start = 0.02 >
beta_end = 0.01 does not fail; it silently yields the decreasing schedule
[0.02, 0.01]. -/
theorem diffusion_no_validation_cex :
    (⟨64, 2, 2/100, 1/100⟩ : Diffusion).beta 0 = (2/100 : ℝ)
    ∧ (⟨64, 2, 2/100, 1/100⟩ : Diffusion).beta 1 = (1/100 : ℝ)
    ∧ (⟨64, 2, 2/100, 1/100⟩ : Diffusion).beta 1
      < (⟨64, 2, 2/100, 1/100⟩ : Diffusion).beta 0 := by
  unfold Diffusion.beta linspace
  norm_num

/-- C6 amended: Diffusion.__init__ performs no validation.  With
beta_start > beta_end (and at least two steps) it silently produces a
strictly decreasing beta schedule instead of raising a configuration
error. -/
theorem diffusion_silent_decreasing (D : Diffusion) (h2 : 2 ≤ D.noise_steps)
    (h : D.beta_end < D.beta_start) {i j : ℕ} (hij : i < j) :
    D.beta j < D.beta i := by
  have hn : (1 : ℝ) ≤ (D.noise_steps : ℝ) - 1 := by
    have : (2 : ℝ) ≤ (D.noise_steps : ℝ) := by exact_mod_cast h2
    linarith
  have hd : (D.beta_end - D.beta_start) / ((D.noise_steps : ℝ) - 1) < 0 :=
    div_neg_of_neg_of_pos (by linarith) (by linarith)
  have hc : (i : ℝ) < (j : ℝ) := by exact_mod_cast hij
  have := mul_lt_mul_of_neg_right hc hd
  unfold Diffusion.beta linspace
  rw [mul_div_assoc, mul_div_assoc]
  linarith

/-- C6 witness: the silently produced invalid schedule is decreasing at the
concrete configuration (0.02, 0.01) with 2 steps. -/
theorem diffusion_silent_decreasing_witness :
    (⟨64, 2, 2/100, 1/100⟩ : Diffusion).beta 1
      < (⟨64, 2, 2/100, 1/100⟩ : Diffusion).beta 0 :=
  diffusion_silent_decreasing ⟨64, 2, 2/100, 1/100⟩ (by norm_num) (by norm_num) (by norm_num)

/-- Membership in the reversed sampling timestep list. -/
lemma mem_pSampleTimesteps {n i : ℕ} : i ∈ pSampleTimesteps n ↔ 1 ≤ i ∧ i < n := by
  simp only [pSampleTimesteps, List.mem_reverse, List.mem_range'_1]
  omega

/-- Quantized pixels are nonnegative. -/
lemma toPixel_nonneg (r : ℝ) : 0 ≤ toPixel r := by
  unfold toPixel
  have h1 : (-1 : ℝ) ≤ min (max r (-1)) 1 :=
    le_min (le_max_right r (-1)) (by norm_num)
  have h0 : (0 : ℝ) ≤ (min (max r (-1)) 1 + 1) * (255 / 2 : ℝ) := by nlinarith
  exact Int.floor_nonneg.mpr h0

/-- Quantized pixels are at most 255. -/
lemma toPixel_le (r : ℝ) : toPixel r ≤ 255 := by
  unfold toPixel
  have h2 : min (max r (-1)) 1 ≤ 1 := min_le_right _ _
  have hle : (min (max r (-1)) 1 + 1) * (255 / 2 : ℝ) ≤ 255 := by nlinarith
  calc ⌊(min (max r (-1)) 1 + 1) * (255 / 2 : ℝ)⌋
      ≤ ⌊(255 : ℝ)⌋ := Int.floor_le_floor hle
    _ = 255 := by norm_num

/-- C1: every element of the tensor returned by p_sample lies in [0, 255],
the output spatial axes have size img_size * f by construction (the return
type), the loop visits exactly the timesteps noise_steps-1 down to 1 —
never timestep 0 — and the update at timestep 1 uses zero noise. -/
theorem p_sample_range (D : Diffusion) (n f : ℕ)
    (net : (SampleIdx n D.img_size → ℝ) → ℕ → SampleIdx n D.img_size → ℝ)
    (noiseSrc : ℕ → SampleIdx n D.img_size → ℝ)
    (initNoise : SampleIdx n D.img_size → ℝ)
    (b : Fin n) (c : Fin 3) (h : Fin (D.img_size * f)) (w : Fin (D.img_size * f)) :
    (0 ≤ D.p_sample n f net noiseSrc initNoise b c h w
      ∧ D.p_sample n f net noiseSrc initNoise b c h w ≤ 255)
    ∧ 0 ∉ pSampleTimesteps D.noise_steps
    ∧ (∀ i ∈ pSampleTimesteps D.noise_steps, 1 ≤ i ∧ i ≤ D.noise_steps - 1)
    ∧ (∀ x j, D.pSampleStep net noiseSrc x 1 j
        = 1 / D.sqrt_alpha 1
          * (x j - D.beta 1 / D.sqrt_one_minus_alpha_hat 1 * net x 1 j)) := by
  refine ⟨⟨toPixel_nonneg _, toPixel_le _⟩, ?_, ?_, ?_⟩
  · intro h0
    rw [mem_pSampleTimesteps] at h0
    omega
  · intro i hi
    rw [mem_pSampleTimesteps] at hi
    omega
  · intro x j
    unfold Diffusion.pSampleStep
    norm_num

/-- Cumulative products agree with finite products over an initial range. -/
lemma cumprod_eq_prod (f : ℕ → ℝ) : ∀ n, cumprod f n = ∏ k ∈ Finset.range (n + 1), f k
  | 0 => by simp [cumprod]
  | n + 1 => by rw [cumprod, cumprod_eq_prod f n, Finset.prod_range_succ f (n + 1)]

/-- C2: q_sample returns the pair whose first component is
sqrt(cumprod(1-beta)[t]) * x + sqrt(1 - cumprod(1-beta)[t]) * epsilon,
with the per-batch coefficient broadcast over all non-batch axes, and whose
second component is exactly the drawn noise epsilon. -/
theorem q_sample_spec {B I : Type} (D : Diffusion) (x : B → I → ℝ) (t : B → ℕ)
    (eps : B → I → ℝ) (b : B) (j : I) :
    (D.q_sample x t eps).1 b j
      = Real.sqrt (∏ k ∈ Finset.range (t b + 1), (1 - D.beta k)) * x b j
        + Real.sqrt (1 - ∏ k ∈ Finset.range (t b + 1), (1 - D.beta k)) * eps b j
    ∧ (D.q_sample x t eps).2 = eps := by
  constructor
  · show D.sqrt_alpha_hat (t b) * x b j + D.sqrt_one_minus_alpha_hat (t b) * eps b j = _
    unfold Diffusion.sqrt_alpha_hat Diffusion.sqrt_one_minus_alpha_hat Diffusion.alpha_hat
    rw [cumprod_eq_prod]
    simp [Diffusion.alpha]
  · rfl

/-- Blending by zipWith in source argument order equals the claim's
formulation with the shadow list first. -/
lemma update_model_average_eq (e : EMA) (ema_model current_model : List ℚ) :
    e.update_model_average ema_model current_model
      = List.zipWith (fun shadow live => e.beta * shadow + (1 - e.beta) * live)
          ema_model current_model := by
  induction current_model generalizing ema_model with
  | nil => cases ema_model <;> simp [EMA.update_model_average]
  | cons c cs ih =>
    cases ema_model with
    | nil => simp [EMA.update_model_average]
    | cons a as =>
      have htail := ih as
      simp only [EMA.update_model_average, EMA.update_average, List.zipWith] at htail ⊢
      exact List.cons_eq_cons.mpr ⟨by ring, htail⟩

/-- C3: ema_step copies the live parameters verbatim while the counter is
below the warm-start threshold, blends shadow := beta * shadow +
(1 - beta) * live in lockstep once the counter has reached it, and
increments the counter by exactly 1 in both branches. -/
theorem ema_step_spec (e : EMA) (ema_model model : List ℚ) (step_start_ema : ℕ) :
    (e.ema_step ema_model model step_start_ema).1.step = e.step + 1
    ∧ (e.step < step_start_ema →
        (e.ema_step ema_model model step_start_ema).2 = model)
    ∧ (step_start_ema ≤ e.step →
        (e.ema_step ema_model model step_start_ema).2
          = List.zipWith (fun shadow live => e.beta * shadow + (1 - e.beta) * live)
              ema_model model) := by
  unfold EMA.ema_step
  by_cases hlt : e.step < step_start_ema
  · rw [if_pos hlt]
    exact ⟨rfl, fun _ => rfl, fun hw => absurd hlt (not_lt.mpr hw)⟩
  · rw [if_neg hlt]
    exact ⟨rfl, fun hl => absurd hl hlt, fun _ => update_model_average_eq e ema_model model⟩

/-- C3 witness: with threshold 2000, a call at counter 0 copies [5]
verbatim, and a call at counter 3000 blends with beta = 1/2. -/
theorem ema_step_spec_witness :
    (EMA.ema_step ⟨1/2, 0⟩ [3] [5] 2000).2 = [5]
    ∧ (EMA.ema_step ⟨1/2, 3000⟩ [3] [5] 2000).2
      = List.zipWith (fun shadow live => (1/2 : ℚ) * shadow + (1 - 1/2) * live) [3] [5] :=
  ⟨(ema_step_spec ⟨1/2, 0⟩ [3] [5] 2000).2.1 (by norm_num),
   (ema_step_spec ⟨1/2, 3000⟩ [3] [5] 2000).2.2 (by norm_num)⟩

/-- C7 amended: p_sample restores training mode exactly on normal
completion; when the network raises during the loop the error propagates
and the module is left in eval mode (the eval/train toggle is not
exception-scoped). -/
theorem p_sample_mode_restoration {I E : Type} (D : Diffusion)
    (net : (I → ℝ) → ℕ → Except E (I → ℝ)) (noiseSrc : ℕ → I → ℝ) (x0 : I → ℝ) :
    ((D.pSampleWithMode net noiseSrc x0).2 = Mode.train
      ↔ ∃ y, D.pSampleLoopE net noiseSrc x0 (pSampleTimesteps D.noise_steps)
          = Except.ok y)
    ∧ ((D.pSampleWithMode net noiseSrc x0).2 = Mode.eval
      ↔ ∃ e, D.pSampleLoopE net noiseSrc x0 (pSampleTimesteps D.noise_steps)
          = Except.error e) := by
  rcases hres : D.pSampleLoopE net noiseSrc x0 (pSampleTimesteps D.noise_steps) with e | y
  · constructor
    · simp [Diffusion.pSampleWithMode, hres]
    · simp [Diffusion.pSampleWithMode, hres]
  · constructor
    · simp [Diffusion.pSampleWithMode, hres]
    · simp [Diffusion.pSampleWithMode, hres]

/-- C7 counterexample: with a 2-step schedule and a network that raises at
the first query, p_sample terminates by exception with the module still in
eval mode, so training mode is not restored on error. -/
theorem p_sample_mode_cex :
    ((⟨64, 2, 1/10000, 2/100⟩ : Diffusion).pSampleWithMode
        (fun _ _ => (Except.error () : Except Unit (Unit → ℝ)))
        (fun _ _ => (0 : ℝ)) (fun _ => (0 : ℝ))).2 = Mode.eval
    ∧ Mode.eval ≠ Mode.train := by
  constructor
  · rfl
  · decide

/-- The positional-encoding lookup succeeds whenever every timestep is
within the first-axis capacity. -/
lemma posEnc_forward_isSome (pe : PosEnc) (training : Bool)
    (mask : ℕ → ℕ → ℕ → ℝ) (t : List ℕ) (hb : ∀ v ∈ t, v < pe.time_dim) :
    ∃ z, pe.forward training mask t = some z := by
  unfold PosEnc.forward
  rw [if_pos hb]
  cases hB : pe.apply_dropout && training <;> simp [hB]

/-- C4 amended: UNet3D.forward returns the same output for any two
timestep tensors whose entries are all below the positional table's
first-axis size (time_dim); the embedding is computed and discarded.  For
a timestep at or beyond time_dim the embedding lookup itself errors, so
equality does not extend to all valid diffusion timesteps. -/
theorem unet_forward_timestep_invariant {τ : Type} (net : UNet3DM τ) (x : τ)
    (t1 t2 : List ℕ) (h1 : ∀ v ∈ t1, v < net.time_dim)
    (h2 : ∀ v ∈ t2, v < net.time_dim) :
    net.forward x t1 = net.forward x t2 := by
  obtain ⟨z1, hz1⟩ := posEnc_forward_isSome
    ⟨net.time_dim, net.time_dim, net.noise_steps, true⟩
    net.training net.dropout_mask t1 h1
  obtain ⟨z2, hz2⟩ := posEnc_forward_isSome
    ⟨net.time_dim, net.time_dim, net.noise_steps, true⟩
    net.training net.dropout_mask t2 h2
  unfold UNet3DM.forward
  rw [hz1, hz2]

/-- C4 witness: with the default-hyperparameter network, timesteps 1 and 2
are both below time_dim = 256 and yield equal outputs. -/
theorem unet_forward_timestep_invariant_witness :
    UNet3DM.forward exUNet 0 [1] = UNet3DM.forward exUNet 0 [2] :=
  unet_forward_timestep_invariant exUNet 0 [1] [2] (by decide) (by decide)

/-- C4 counterexample: timesteps 300 and 10 are both valid diffusion
timesteps (below noise_steps = 1000), yet forward errors at 300 (table
first axis has size time_dim = 256) and returns at 10, so the outputs
differ. -/
theorem unet_forward_timestep_cex :
    UNet3DM.forward exUNet 0 [300] = none
    ∧ UNet3DM.forward exUNet 0 [10] = some 0
    ∧ 300 < exUNet.noise_steps := by
  exact ⟨rfl, rfl, by decide⟩

/-- div_term as a power of 10000: exp(-log(10000) * e / dim) =
(10000 ^ (e / dim))⁻¹. -/
lemma posDivTerm_eq (dim e : ℕ) :
    posDivTerm dim e = ((10000 : ℝ) ^ ((e : ℝ) / (dim : ℝ)))⁻¹ := by
  unfold posDivTerm
  rw [← Real.rpow_neg (by norm_num : (0 : ℝ) ≤ 10000),
    Real.rpow_def_of_pos (by norm_num : (0 : ℝ) < 10000)]
  congr 1
  ring

/-- The lookup's output shape: squeeze(1) drops the middle axis only when
max_len = 1; otherwise the output keeps rank 3. -/
lemma posEnc_forward_shape (pe : PosEnc) (training : Bool)
    (mask : ℕ → ℕ → ℕ → ℝ) (t : List ℕ) (hb : ∀ v ∈ t, v < pe.time_dim) :
    (pe.forward training mask t).map Prod.fst
      = some (if pe.max_len = 1 then [t.length, pe.embedding_dim]
          else [t.length, pe.max_len, pe.embedding_dim]) := by
  unfold PosEnc.forward
  rw [if_pos hb]
  cases hB : pe.apply_dropout && training <;> simp [hB]

/-- C8 amended: the buffer built at construction has shape
[time_dim, max_len, embedding_dim] (identical sinusoidal slices broadcast
along the first axis): even embedding indices hold
sin(position / 10000^(2k/dim)) and odd ones the matching cos; and for an
in-capacity batch of timesteps the lookup returns shape
[batch, max_len, embedding_dim] — collapsing to [batch, embedding_dim]
only in the degenerate case max_len = 1. -/
theorem pos_encoding_spec (pe : PosEnc) (training : Bool)
    (mask : ℕ → ℕ → ℕ → ℝ) (t : List ℕ) (j p k : ℕ)
    (hb : ∀ v ∈ t, v < pe.time_dim) :
    posTableShape pe = [pe.time_dim, pe.max_len, pe.embedding_dim]
    ∧ posTableEntry pe.embedding_dim j p (2 * k)
        = Real.sin (p / (10000 : ℝ) ^ (((2 * k : ℕ) : ℝ) / (pe.embedding_dim : ℝ)))
    ∧ posTableEntry pe.embedding_dim j p (2 * k + 1)
        = Real.cos (p / (10000 : ℝ) ^ (((2 * k : ℕ) : ℝ) / (pe.embedding_dim : ℝ)))
    ∧ (pe.forward training mask t).map Prod.fst
        = some (if pe.max_len = 1 then [t.length, pe.embedding_dim]
            else [t.length, pe.max_len, pe.embedding_dim]) := by
  refine ⟨rfl, ?_, ?_, posEnc_forward_shape pe training mask t hb⟩
  · unfold posTableEntry
    rw [if_pos (Nat.mul_mod_right 2 k), posDivTerm_eq]
    simp [div_eq_mul_inv]
  · unfold posTableEntry
    have hodd : ¬ ((2 * k + 1) % 2 = 0) := by omega
    rw [if_neg hodd]
    have heq : 2 * k + 1 - 1 = 2 * k := rfl
    rw [heq, posDivTerm_eq]
    simp [div_eq_mul_inv]

/-- C8 witness: concrete lookup with the UNet's configuration
(time_dim 256, max_len 1000) on the batch [5] returns the rank-3 shape. -/
theorem pos_encoding_spec_witness :
    ((⟨256, 256, 1000, true⟩ : PosEnc).forward false (fun _ _ _ => 1) [5]).map Prod.fst
      = some [1, 1000, 256] :=
  (pos_encoding_spec ⟨256, 256, 1000, true⟩ false (fun _ _ _ => 1) [5] 0 1 0
    (by decide)).2.2.2

/-- C8 counterexample: the buffer shape is [256, 1000, 256], not the
claimed 2-D [capacity, dim] = [1000, 256]; and the lookup on the batch [5]
in training mode returns shape [1, 1000, 256], not [batch, dim] = [1, 256]. -/
theorem pos_encoding_shape_cex :
    posTableShape ⟨256, 256, 1000, true⟩ ≠ [1000, 256]
    ∧ ((⟨256, 256, 1000, true⟩ : PosEnc).forward true (fun _ _ _ => 1) [5]).map Prod.fst
      = some [1, 1000, 256]
    ∧ ([1, 1000, 256] : List ℕ) ≠ [1, 256] := by
  exact ⟨by decide, rfl, by decide⟩

/-- C9: Utils.save_checkpoint gates the grad_scaler state on the scheduler
argument (copy-paste of the `if scheduler` guard): a grad_scaler passed
without a scheduler is silently dropped, and a scheduler passed without a
grad_scaler crashes.  Loading tolerates unmatched weight keys and missing
optional states and returns the stored epoch. -/
theorem save_checkpoint_grad_scaler_bug :
    save_checkpoint ℕ 3 [("w", 1)] none none (some 7)
      = Except.ok ⟨some 3, some [("w", 1)], none, none, none⟩
    ∧ save_checkpoint ℕ 3 [("w", 1)] none (some 5) none
      = Except.error "NoneType has no attribute state_dict"
    ∧ load_checkpoint ℕ [("w", 0)]
        ⟨some 4, some [("w", 9), ("extra", 2)], none, none, none⟩ none none none
      = Except.ok (4, [("w", 9)]) := by
  exact ⟨rfl, rfl, rfl⟩

/-- The sampling-and-checkpointing branch fires exactly on batches whose
index is a multiple of save_every. -/
lemma sample_mem_batchEvents (acc se i : ℕ) :
    TrainEvent.sample ∈ batchEvents acc se i ↔ i % se = 0 := by
  by_cases hA : (i + 1) % acc = 0 <;> by_cases hS : i % se = 0 <;>
    simp [batchEvents, hA, hS]

/-- C10 amended: the save branch fires exactly when batch_idx % save_every
= 0, hence on the very first batch of every epoch; with
accumulation_iters >= 2 the epoch trace starts with backward, sampling and
the two checkpoint writes before any optimizer step; and under the default
configuration (save_every = 2000, accumulation_iters = 64) a save batch is
never an accumulation boundary.  (Neither of the last two points holds for
arbitrary configurations — see the counterexample.) -/
theorem trainer_save_cadence (acc se nB : ℕ) :
    (∀ i, TrainEvent.sample ∈ batchEvents acc se i ↔ i % se = 0)
    ∧ TrainEvent.sample ∈ batchEvents acc se 0
    ∧ (2 ≤ acc → 1 ≤ nB → ∃ rest, epochEvents acc se nB
        = TrainEvent.backward :: TrainEvent.sample :: TrainEvent.saveCkpt
          :: TrainEvent.saveCkptEma :: rest)
    ∧ (∀ i, ¬ (i % 2000 = 0 ∧ (i + 1) % 64 = 0)) := by
  refine ⟨fun i => sample_mem_batchEvents acc se i, ?_, ?_, ?_⟩
  · rw [sample_mem_batchEvents]
    exact Nat.zero_mod se
  · intro hacc hnB
    obtain ⟨m, rfl⟩ : ∃ m, nB = m + 1 := ⟨nB - 1, by omega⟩
    have h1 : (0 + 1) % acc = 1 := by
      show 1 % acc = 1
      exact Nat.mod_eq_of_lt hacc
    refine ⟨((List.range m).map Nat.succ).flatMap (batchEvents acc se), ?_⟩
    simp [epochEvents, List.range_succ_eq_map, batchEvents, h1]
  · intro i hi
    obtain ⟨hA, hB⟩ := hi
    have h16i : (16 : ℕ) ∣ i :=
      dvd_trans (by norm_num) (Nat.dvd_of_mod_eq_zero hA)
    have h16i1 : (16 : ℕ) ∣ (i + 1) :=
      dvd_trans (by norm_num) (Nat.dvd_of_mod_eq_zero hB)
    have hone : (16 : ℕ) ∣ 1 := by
      have hsub := Nat.dvd_sub' h16i1 h16i
      rwa [Nat.add_sub_cancel_left] at hsub
    norm_num at hone

/-- C10 witness: the claim's conditional parts at the Trainer defaults
(save_every 2000, accumulation_iters 64) and a 3-batch epoch. -/
theorem trainer_save_cadence_witness :
    ∃ rest, epochEvents 64 2000 3
      = TrainEvent.backward :: TrainEvent.sample :: TrainEvent.saveCkpt
        :: TrainEvent.saveCkptEma :: rest :=
  (trainer_save_cadence 64 2000 3).2.2.1 (by norm_num) (by norm_num)

/-- C10 counterexample: with accumulation_iters = 1 (and save_every at its
default 2000), batch 0 fires the save branch AND is an accumulation
boundary, and its optimizer step precedes the sampling/checkpoint events. -/
theorem trainer_save_cadence_cex :
    batchEvents 1 2000 0
      = [TrainEvent.backward, TrainEvent.optStep, TrainEvent.emaStep,
         TrainEvent.sample, TrainEvent.saveCkpt, TrainEvent.saveCkptEma]
    ∧ 0 % 2000 = 0 ∧ (0 + 1) % 1 = 0 := by
  decide

end VideoDiffusion
